import Mathlib

/-!
Shallow embedding of `src/snapshot/core/_ascon_native.c`, the validation /
variant-resolution / dispatch boundary layer around the vendored Ascon AEAD
primitive.

Byte buffers (`Py_buffer` contents) are embedded as `List Nat`; `Py_ssize_t`
values are embedded as `Int` where signedness matters (the `convert_length`
guard) and as `Nat` where the value is a buffer length.  `PY_SSIZE_T_MAX` is
platform dependent, so the encrypt dispatcher takes the platform limit `pmax`
as an explicit parameter; `PY_SSIZE_T_MAX64` is its value on an LP64 platform.

The vendored cipher itself (`third_party/ascon_c/.../aead.c`, outside the
snapshot) is modelled from the spec as an executable deterministic AEAD that
satisfies the collaborator contract of spec section 6: see `ascon_aead_encrypt`
and `ascon_aead_decrypt` below.
-/

set_option maxRecDepth 40000

namespace AsconNative

/-- Python exception values raised by the binding, by exception class and
message, mirroring `PyErr_SetString` / `PyErr_Format` calls in the C file. -/
inductive PyErr where
  | ValueError (msg : String)
  | OverflowError (msg : String)
  | RuntimeError (msg : String)
  deriving DecidableEq, Repr

/-- Constant `ASCON_TAG_BYTES` from the C file. -/
def ASCON_TAG_BYTES : Nat := 16

/-- Constant `ASCON_NONCE_BYTES` from the C file. -/
def ASCON_NONCE_BYTES : Nat := 16

/-- Constant `ASCON_KEY_BYTES` from the C file. -/
def ASCON_KEY_BYTES : Nat := 16

/-- Value of `PY_SSIZE_T_MAX` on an LP64 platform (64-bit `Py_ssize_t`).  The C code
uses the platform constant; the embedding passes the limit explicitly. -/
def PY_SSIZE_T_MAX64 : Nat := 2 ^ 63 - 1

/-- Modelled from the spec: keystream byte `i` of the external Ascon primitive
(the vendored `aead.c` is not part of the snapshot).  Per spec section 3 the
primitive semantically consumes only the first 16 bytes of the nonce, which the
model makes explicit through `nonce.take 16`.  The concrete mixing formula is a
stand-in for the permutation, which the spec leaves out of scope. -/
def ks (vid : Nat) (key nonce : List Nat) (i : Nat) : Nat :=
  (key.getD (i % 16) 0 * 131 + (nonce.take 16).getD (i % 16) 0 * 17
    + i * 7 + vid * 29 + 3) % 256

/-- Modelled from the spec: XOR of a message with the primitive keystream
starting at position `i`; applied twice with the same parameters it is the
identity, which gives the AEAD round trip of spec section 8. -/
def xorStream (vid : Nat) (key nonce : List Nat) : Nat → List Nat → List Nat
  | _, [] => []
  | i, b :: rest => (b ^^^ ks vid key nonce i) :: xorStream vid key nonce (i + 1) rest

/-- Modelled from the spec: absorption of a byte sequence into a running
accumulator, used by the modelled tag computation. -/
def absorb (acc : Nat) (l : List Nat) : Nat :=
  l.foldl (fun a b => (a * 257 + b + 1) % 65536) acc

/-- Modelled from the spec: the 16-byte authentication tag of the external
primitive, a deterministic function of variant, key, the first 16 nonce bytes,
aad and ciphertext body (spec sections 3 and 6). -/
def mkTag (vid : Nat) (key nonce aad body : List Nat) : List Nat :=
  (List.range 16).map (fun j =>
    absorb (absorb (absorb (vid * 59 + j * 13 + 7) key) (nonce.take 16))
      (aad ++ 251 :: body) % 256)

/-- Modelled from the spec: the external primitive encrypt entry point
(spec section 6): from key, nonce, aad and message it produces a status, the
ciphertext body (same length as the message) and the 16-byte tag.  The status
is 0: the spec defines the primitive never to fail under valid preconditions. -/
def ascon_aead_encrypt (vid : Nat) (key nonce aad msg : List Nat) :
    Int × List Nat × List Nat :=
  let body := xorStream vid key nonce 0 msg
  (0, body, mkTag vid key nonce aad body)

/-- Modelled from the spec: the external primitive decrypt-and-verify entry
point (spec section 6): status 0 exactly when the recomputed tag matches the
supplied tag; the second component is the content of the caller-provided
output buffer after the call (the primitive writes the decrypted bytes into it
whether or not verification succeeds). -/
def ascon_aead_decrypt (vid : Nat) (key nonce aad body tag : List Nat) :
    Int × List Nat :=
  (if mkTag vid key nonce aad body = tag then 0 else 1,
   xorStream vid key nonce 0 body)

/-- Embedding of `struct ascon_variant`: a catalog entry pairing a variant name with the
primitive encrypt and decrypt function pointers. -/
structure AsconVariant where
  name : String
  encrypt_fn : List Nat → List Nat → List Nat → List Nat → Int × List Nat × List Nat
  decrypt_fn : List Nat → List Nat → List Nat → List Nat → List Nat → Int × List Nat

/-- Catalog entry for `"Ascon-AEAD128"` (the rate-8 parameterization). -/
def variant128 : AsconVariant :=
  ⟨"Ascon-AEAD128", ascon_aead_encrypt 0, ascon_aead_decrypt 0⟩

/-- Catalog entry for `"Ascon-AEAD128a"` (the rate-16 parameterization). -/
def variant128a : AsconVariant :=
  ⟨"Ascon-AEAD128a", ascon_aead_encrypt 1, ascon_aead_decrypt 1⟩

/-- The fixed two-entry variant catalog `kVariants` from the C file. -/
def kVariants : List AsconVariant := [variant128, variant128a]

/-- The scan loop of `resolve_variant`, over an arbitrary catalog: an entry
matches when its name has the same length as the query and the same bytes
(`strlen` comparison followed by `memcmp`). -/
def find_variant (table : List AsconVariant) (name : String) : Option AsconVariant :=
  table.find? (fun v => v.name.length == name.length && v.name == name)

/-- Function `resolve_variant` from the C file: linear scan of `kVariants`, requiring
exact length and exact byte equality; `none` embeds the C `NULL` result. -/
def resolve_variant (name : String) : Option AsconVariant :=
  find_variant kVariants name

/-- Function `convert_length` from the C file: a signed length is rejected with a
`ValueError` when negative and otherwise converted to the unsigned width. -/
def convert_length (value : Int) (field : String) : Except PyErr Nat :=
  if value < 0 then .error (.ValueError (field ++ " length must be non-negative"))
  else .ok value.toNat

/-- Function `native_encrypt` from the C file, over an arbitrary variant catalog
`table` and platform limit `pmax`: key and nonce length guards, variant
resolution, signed-length conversion, overflow guard, then the primitive call
whose body and tag fill one output buffer of `plaintext.length + 16` bytes. -/
def native_encrypt_impl (table : List AsconVariant) (pmax : Nat)
    (key nonce aad plaintext : List Nat) (variant_name : String) :
    Except PyErr (List Nat) :=
  if key.length ≠ ASCON_KEY_BYTES then
    .error (.ValueError "key must be 16 bytes")
  else if nonce.length < ASCON_NONCE_BYTES then
    .error (.ValueError "nonce must be at least 16 bytes")
  else
    match find_variant table variant_name with
    | none => .error (.ValueError "unknown Ascon variant")
    | some variant =>
      match convert_length (aad.length : Int) "aad" with
      | .error e => .error e
      | .ok _aad_len =>
        match convert_length (plaintext.length : Int) "plaintext" with
        | .error e => .error e
        | .ok _msg_len =>
          if (plaintext.length : Int) > (pmax : Int) - (ASCON_TAG_BYTES : Int) then
            .error (.OverflowError "ciphertext length exceeds platform limits")
          else
            let r := variant.encrypt_fn key nonce aad plaintext
            if r.1 ≠ 0 then .error (.RuntimeError "Ascon encryption failed")
            else .ok (r.2.1 ++ r.2.2)

/-- Dispatcher `native_encrypt` specialised to the real catalog `kVariants`. -/
def native_encrypt (pmax : Nat) (key nonce aad plaintext : List Nat)
    (variant_name : String) : Except PyErr (List Nat) :=
  native_encrypt_impl kVariants pmax key nonce aad plaintext variant_name

/-- Function `native_decrypt` from the C file, over an arbitrary variant catalog:
key, nonce and ciphertext-length guards, variant resolution, signed-length
conversions, split of the ciphertext into body and trailing 16-byte tag, then
the primitive decrypt-and-verify call; a nonzero status discards the output
buffer and returns `Py_None` (embedded as `.ok none`). -/
def native_decrypt_impl (table : List AsconVariant)
    (key nonce aad ciphertext : List Nat) (variant_name : String) :
    Except PyErr (Option (List Nat)) :=
  if key.length ≠ ASCON_KEY_BYTES then
    .error (.ValueError "key must be 16 bytes")
  else if nonce.length < ASCON_NONCE_BYTES then
    .error (.ValueError "nonce must be at least 16 bytes")
  else if ciphertext.length < ASCON_TAG_BYTES then
    .error (.ValueError "ciphertext too short")
  else
    match find_variant table variant_name with
    | none => .error (.ValueError "unknown Ascon variant")
    | some variant =>
      let plaintext_len : Int := (ciphertext.length : Int) - (ASCON_TAG_BYTES : Int)
      match convert_length (aad.length : Int) "aad" with
      | .error e => .error e
      | .ok _aad_len =>
        match convert_length plaintext_len "ciphertext" with
        | .error e => .error e
        | .ok body_len =>
          let body := ciphertext.take body_len
          let tag := ciphertext.drop body_len
          let r := variant.decrypt_fn key nonce aad body tag
          if r.1 ≠ 0 then .ok none
          else .ok (some r.2)

/-- Dispatcher `native_decrypt` specialised to the real catalog `kVariants`. -/
def native_decrypt (key nonce aad ciphertext : List Nat)
    (variant_name : String) : Except PyErr (Option (List Nat)) :=
  native_decrypt_impl kVariants key nonce aad ciphertext variant_name

/-! ### Sample concrete inputs, used by the witness theorems -/

/-- A concrete 16-byte key. -/
def sampleKey : List Nat := List.replicate 16 1

/-- A concrete 16-byte nonce. -/
def sampleNonce : List Nat := List.replicate 16 2

/-- The sample nonce with four extra tail bytes. -/
def sampleNonceLong : List Nat := sampleNonce ++ [9, 9, 9, 9]

/-! ### Helper lemmas about the modelled primitive -/

theorem xorStream_length (vid : Nat) (key nonce : List Nat) (i : Nat)
    (msg : List Nat) : (xorStream vid key nonce i msg).length = msg.length := by
  induction msg generalizing i with
  | nil => rfl
  | cons b rest ih => simp [xorStream, ih]

theorem xorStream_xorStream (vid : Nat) (key nonce : List Nat) (i : Nat)
    (msg : List Nat) :
    xorStream vid key nonce i (xorStream vid key nonce i msg) = msg := by
  induction msg generalizing i with
  | nil => rfl
  | cons b rest ih =>
    simp only [xorStream, ih]
    rw [Nat.xor_assoc, Nat.xor_self, Nat.xor_zero]

theorem mkTag_length (vid : Nat) (key nonce aad body : List Nat) :
    (mkTag vid key nonce aad body).length = 16 := by
  simp [mkTag]

theorem ks_nonce_take (vid : Nat) (key n1 n2 : List Nat) (i : Nat)
    (h : n1.take 16 = n2.take 16) : ks vid key n1 i = ks vid key n2 i := by
  simp only [ks, h]

theorem xorStream_nonce_take (vid : Nat) (key n1 n2 : List Nat) (i : Nat)
    (msg : List Nat) (h : n1.take 16 = n2.take 16) :
    xorStream vid key n1 i msg = xorStream vid key n2 i msg := by
  induction msg generalizing i with
  | nil => rfl
  | cons b rest ih => simp only [xorStream, ks_nonce_take vid key n1 n2 _ h, ih]

theorem mkTag_nonce_take (vid : Nat) (key n1 n2 aad body : List Nat)
    (h : n1.take 16 = n2.take 16) :
    mkTag vid key n1 aad body = mkTag vid key n2 aad body := by
  simp only [mkTag, h]

/-! ### Helper lemmas about variant resolution -/

theorem resolve_variant_128 : resolve_variant "Ascon-AEAD128" = some variant128 :=
  rfl

theorem resolve_variant_128a :
    resolve_variant "Ascon-AEAD128a" = some variant128a :=
  rfl

theorem resolve_variant_spec (name : String) (v : AsconVariant)
    (h : resolve_variant name = some v) :
    (name = "Ascon-AEAD128" ∧ v = variant128) ∨
      (name = "Ascon-AEAD128a" ∧ v = variant128a) := by
  have hmem := List.mem_of_find?_eq_some h
  have hp := List.find?_some h
  simp only [Bool.and_eq_true, beq_iff_eq] at hp
  simp only [kVariants, List.mem_cons, List.not_mem_nil, or_false] at hmem
  rcases hmem with h1 | h1
  · exact Or.inl ⟨by rw [← hp.2, h1]; rfl, h1⟩
  · exact Or.inr ⟨by rw [← hp.2, h1]; rfl, h1⟩

/-! ### Helper lemmas about length conversion -/

theorem convert_length_ofNat (n : Nat) (field : String) :
    convert_length (n : Int) field = .ok n := by
  simp [convert_length]

theorem convert_length_sub16 (n : Nat) (field : String) (h : 16 ≤ n) :
    convert_length ((n : Int) - 16) field = .ok (n - 16) := by
  have h0 : ¬((n : Int) - 16 < 0) := by omega
  simp only [convert_length, if_neg h0]
  congr 1
  omega

/-! ### Success-path evaluation lemmas for the dispatchers -/

theorem native_encrypt_impl_eq (table : List AsconVariant) (pmax : Nat)
    (key nonce aad plaintext : List Nat) (name : String) (v : AsconVariant)
    (hk : key.length = 16) (hn : 16 ≤ nonce.length)
    (hres : find_variant table name = some v)
    (hp : (plaintext.length : Int) ≤ (pmax : Int) - 16) :
    native_encrypt_impl table pmax key nonce aad plaintext name =
      if (v.encrypt_fn key nonce aad plaintext).1 ≠ 0 then
        .error (.RuntimeError "Ascon encryption failed")
      else
        .ok ((v.encrypt_fn key nonce aad plaintext).2.1 ++
          (v.encrypt_fn key nonce aad plaintext).2.2) := by
  have h1 : ¬(key.length ≠ ASCON_KEY_BYTES) := by simp [ASCON_KEY_BYTES, hk]
  have h2 : ¬(nonce.length < ASCON_NONCE_BYTES) := by
    simp only [ASCON_NONCE_BYTES]; omega
  have h3 : ¬((plaintext.length : Int) > (pmax : Int) - (ASCON_TAG_BYTES : Int)) := by
    simp only [ASCON_TAG_BYTES]; push_cast; omega
  simp only [native_encrypt_impl, if_neg h1, if_neg h2, hres, convert_length_ofNat,
    if_neg h3]

theorem native_decrypt_impl_eq (table : List AsconVariant)
    (key nonce aad ct : List Nat) (name : String) (v : AsconVariant)
    (hk : key.length = 16) (hn : 16 ≤ nonce.length) (hc : 16 ≤ ct.length)
    (hres : find_variant table name = some v) :
    native_decrypt_impl table key nonce aad ct name =
      if (v.decrypt_fn key nonce aad (ct.take (ct.length - 16))
            (ct.drop (ct.length - 16))).1 ≠ 0 then
        .ok none
      else
        .ok (some (v.decrypt_fn key nonce aad (ct.take (ct.length - 16))
          (ct.drop (ct.length - 16))).2) := by
  have h1 : ¬(key.length ≠ ASCON_KEY_BYTES) := by simp [ASCON_KEY_BYTES, hk]
  have h2 : ¬(nonce.length < ASCON_NONCE_BYTES) := by
    simp only [ASCON_NONCE_BYTES]; omega
  have h3 : ¬(ct.length < ASCON_TAG_BYTES) := by
    simp only [ASCON_TAG_BYTES]; omega
  have h4 : convert_length ((ct.length : Int) - (ASCON_TAG_BYTES : Int))
      "ciphertext" = .ok (ct.length - 16) := by
    simp only [ASCON_TAG_BYTES]
    exact_mod_cast convert_length_sub16 ct.length "ciphertext" hc
  simp only [native_decrypt_impl, if_neg h1, if_neg h2, if_neg h3, hres,
    convert_length_ofNat, h4]

/-! ### Error-path evaluation lemmas for the dispatchers -/

theorem native_encrypt_impl_badkey (table : List AsconVariant) (pmax : Nat)
    (key nonce aad pt : List Nat) (name : String) (hk : key.length ≠ 16) :
    native_encrypt_impl table pmax key nonce aad pt name =
      .error (.ValueError "key must be 16 bytes") := by
  simp only [native_encrypt_impl,
    if_pos (show key.length ≠ ASCON_KEY_BYTES from hk)]

theorem native_encrypt_impl_badnonce (table : List AsconVariant) (pmax : Nat)
    (key nonce aad pt : List Nat) (name : String)
    (hk : key.length = 16) (hn : nonce.length < 16) :
    native_encrypt_impl table pmax key nonce aad pt name =
      .error (.ValueError "nonce must be at least 16 bytes") := by
  have h1 : ¬(key.length ≠ ASCON_KEY_BYTES) := by simp [ASCON_KEY_BYTES, hk]
  simp only [native_encrypt_impl, if_neg h1,
    if_pos (show nonce.length < ASCON_NONCE_BYTES from hn)]

theorem native_encrypt_impl_unknown (table : List AsconVariant) (pmax : Nat)
    (key nonce aad pt : List Nat) (name : String)
    (hk : key.length = 16) (hn : 16 ≤ nonce.length)
    (hres : find_variant table name = none) :
    native_encrypt_impl table pmax key nonce aad pt name =
      .error (.ValueError "unknown Ascon variant") := by
  have h1 : ¬(key.length ≠ ASCON_KEY_BYTES) := by simp [ASCON_KEY_BYTES, hk]
  have h2 : ¬(nonce.length < ASCON_NONCE_BYTES) := by
    simp only [ASCON_NONCE_BYTES]; omega
  simp only [native_encrypt_impl, if_neg h1, if_neg h2, hres]

theorem native_encrypt_impl_overflow (table : List AsconVariant) (pmax : Nat)
    (key nonce aad pt : List Nat) (name : String) (v : AsconVariant)
    (hk : key.length = 16) (hn : 16 ≤ nonce.length)
    (hres : find_variant table name = some v)
    (hp : (pmax : Int) - 16 < (pt.length : Int)) :
    native_encrypt_impl table pmax key nonce aad pt name =
      .error (.OverflowError "ciphertext length exceeds platform limits") := by
  have h1 : ¬(key.length ≠ ASCON_KEY_BYTES) := by simp [ASCON_KEY_BYTES, hk]
  have h2 : ¬(nonce.length < ASCON_NONCE_BYTES) := by
    simp only [ASCON_NONCE_BYTES]; omega
  have h3 : (pt.length : Int) > (pmax : Int) - (ASCON_TAG_BYTES : Int) := by
    simp only [ASCON_TAG_BYTES]; push_cast; omega
  simp only [native_encrypt_impl, if_neg h1, if_neg h2, hres, convert_length_ofNat,
    if_pos h3]

theorem native_decrypt_impl_badkey (table : List AsconVariant)
    (key nonce aad ct : List Nat) (name : String) (hk : key.length ≠ 16) :
    native_decrypt_impl table key nonce aad ct name =
      .error (.ValueError "key must be 16 bytes") := by
  simp only [native_decrypt_impl,
    if_pos (show key.length ≠ ASCON_KEY_BYTES from hk)]

theorem native_decrypt_impl_badnonce (table : List AsconVariant)
    (key nonce aad ct : List Nat) (name : String)
    (hk : key.length = 16) (hn : nonce.length < 16) :
    native_decrypt_impl table key nonce aad ct name =
      .error (.ValueError "nonce must be at least 16 bytes") := by
  have h1 : ¬(key.length ≠ ASCON_KEY_BYTES) := by simp [ASCON_KEY_BYTES, hk]
  simp only [native_decrypt_impl, if_neg h1,
    if_pos (show nonce.length < ASCON_NONCE_BYTES from hn)]

theorem native_decrypt_impl_shortct (table : List AsconVariant)
    (key nonce aad ct : List Nat) (name : String)
    (hk : key.length = 16) (hn : 16 ≤ nonce.length) (hc : ct.length < 16) :
    native_decrypt_impl table key nonce aad ct name =
      .error (.ValueError "ciphertext too short") := by
  have h1 : ¬(key.length ≠ ASCON_KEY_BYTES) := by simp [ASCON_KEY_BYTES, hk]
  have h2 : ¬(nonce.length < ASCON_NONCE_BYTES) := by
    simp only [ASCON_NONCE_BYTES]; omega
  simp only [native_decrypt_impl, if_neg h1, if_neg h2,
    if_pos (show ct.length < ASCON_TAG_BYTES from hc)]

theorem native_decrypt_impl_unknown (table : List AsconVariant)
    (key nonce aad ct : List Nat) (name : String)
    (hk : key.length = 16) (hn : 16 ≤ nonce.length) (hc : 16 ≤ ct.length)
    (hres : find_variant table name = none) :
    native_decrypt_impl table key nonce aad ct name =
      .error (.ValueError "unknown Ascon variant") := by
  have h1 : ¬(key.length ≠ ASCON_KEY_BYTES) := by simp [ASCON_KEY_BYTES, hk]
  have h2 : ¬(nonce.length < ASCON_NONCE_BYTES) := by
    simp only [ASCON_NONCE_BYTES]; omega
  have h3 : ¬(ct.length < ASCON_TAG_BYTES) := by
    simp only [ASCON_TAG_BYTES]; omega
  simp only [native_decrypt_impl, if_neg h1, if_neg h2, if_neg h3, hres]

/-- The two catalog entries report status 0 and produce a body of the message
length plus a 16-byte tag, as the spec's collaborator contract requires. -/
theorem encrypt_fn_spec (v : AsconVariant) (key nonce aad msg : List Nat)
    (hv : v = variant128 ∨ v = variant128a) :
    (v.encrypt_fn key nonce aad msg).1 = 0 ∧
      (v.encrypt_fn key nonce aad msg).2.1.length = msg.length ∧
      (v.encrypt_fn key nonce aad msg).2.2.length = 16 := by
  rcases hv with hv | hv <;> subst hv <;>
    simp [variant128, variant128a, ascon_aead_encrypt, xorStream_length, mkTag_length]

theorem round_trip_aux (vid pmax : Nat) (key nonce aad pt : List Nat)
    (name : String) (v : AsconVariant)
    (hk : key.length = 16) (hn : 16 ≤ nonce.length)
    (hres : find_variant kVariants name = some v)
    (henc : v.encrypt_fn = ascon_aead_encrypt vid)
    (hdec : v.decrypt_fn = ascon_aead_decrypt vid)
    (hp : (pt.length : Int) ≤ (pmax : Int) - 16) :
    ∃ ct, native_encrypt_impl kVariants pmax key nonce aad pt name = .ok ct ∧
      native_decrypt_impl kVariants key nonce aad ct name = .ok (some pt) := by
  refine ⟨xorStream vid key nonce 0 pt ++
    mkTag vid key nonce aad (xorStream vid key nonce 0 pt), ?_, ?_⟩
  · rw [native_encrypt_impl_eq kVariants pmax key nonce aad pt name v hk hn hres hp,
      henc]
    simp [ascon_aead_encrypt]
  · have hct : (xorStream vid key nonce 0 pt ++
        mkTag vid key nonce aad (xorStream vid key nonce 0 pt)).length =
        pt.length + 16 := by
      simp [List.length_append, xorStream_length, mkTag_length]
    have hc : 16 ≤ (xorStream vid key nonce 0 pt ++
        mkTag vid key nonce aad (xorStream vid key nonce 0 pt)).length := by
      omega
    rw [native_decrypt_impl_eq kVariants key nonce aad _ name v hk hn hc hres, hdec]
    have hsub : (xorStream vid key nonce 0 pt ++
        mkTag vid key nonce aad (xorStream vid key nonce 0 pt)).length - 16 =
        (xorStream vid key nonce 0 pt).length := by
      rw [hct, xorStream_length]
      omega
    rw [hsub, List.take_left, List.drop_left]
    simp [ascon_aead_decrypt, xorStream_xorStream]

/-- Inversion: a successful `native_encrypt` call passed every guard and its
result is the primitive body followed by the primitive tag. -/
theorem native_encrypt_ok_inv (pmax : Nat) (key nonce aad pt : List Nat)
    (name : String) (ct : List Nat)
    (h : native_encrypt pmax key nonce aad pt name = .ok ct) :
    key.length = 16 ∧ 16 ≤ nonce.length ∧
      ∃ v, find_variant kVariants name = some v ∧
        (pt.length : Int) ≤ (pmax : Int) - 16 ∧
        ct = (v.encrypt_fn key nonce aad pt).2.1 ++
          (v.encrypt_fn key nonce aad pt).2.2 := by
  unfold native_encrypt at h
  have hk : key.length = 16 := by
    by_contra hk
    rw [native_encrypt_impl_badkey kVariants pmax key nonce aad pt name hk] at h
    simp at h
  have hn : 16 ≤ nonce.length := by
    by_contra hn
    push_neg at hn
    rw [native_encrypt_impl_badnonce kVariants pmax key nonce aad pt name hk hn] at h
    simp at h
  obtain ⟨v, hv⟩ : ∃ v, find_variant kVariants name = some v := by
    cases hfv : find_variant kVariants name with
    | none =>
      rw [native_encrypt_impl_unknown kVariants pmax key nonce aad pt name hk hn
        hfv] at h
      simp at h
    | some v => exact ⟨v, rfl⟩
  have hp : (pt.length : Int) ≤ (pmax : Int) - 16 := by
    by_contra hp
    push_neg at hp
    rw [native_encrypt_impl_overflow kVariants pmax key nonce aad pt name v hk hn
      hv hp] at h
    simp at h
  refine ⟨hk, hn, v, hv, hp, ?_⟩
  rw [native_encrypt_impl_eq kVariants pmax key nonce aad pt name v hk hn hv hp] at h
  have hst := (encrypt_fn_spec v key nonce aad pt (by
    rcases resolve_variant_spec name v hv with ⟨_, h1⟩ | ⟨_, h1⟩
    · exact Or.inl h1
    · exact Or.inr h1)).1
  rw [if_neg (by simp [hst])] at h
  simpa using h.symm

/-- C2: every successful encrypt call returns a ciphertext of length exactly
`plaintext.length + 16`, consisting of the primitive's encrypted body in the
leading `plaintext.length` bytes followed by the primitive's 16-byte
authentication tag in the final 16 bytes, in one output buffer. -/
theorem C2_ciphertext_shape (pmax : Nat) (key nonce aad pt : List Nat)
    (name : String) (ct : List Nat)
    (h : native_encrypt pmax key nonce aad pt name = .ok ct) :
    ct.length = pt.length + 16 ∧
    ∃ v, resolve_variant name = some v ∧
      ct.take pt.length = (v.encrypt_fn key nonce aad pt).2.1 ∧
      ct.drop pt.length = (v.encrypt_fn key nonce aad pt).2.2 ∧
      (v.encrypt_fn key nonce aad pt).2.2.length = 16 := by
  obtain ⟨hk, hn, v, hv, hp, hct⟩ :=
    native_encrypt_ok_inv pmax key nonce aad pt name ct h
  have hspec := encrypt_fn_spec v key nonce aad pt (by
    rcases resolve_variant_spec name v hv with ⟨_, h1⟩ | ⟨_, h1⟩
    · exact Or.inl h1
    · exact Or.inr h1)
  subst hct
  refine ⟨by simp [List.length_append, hspec.2.1, hspec.2.2], v, hv, ?_, ?_,
    hspec.2.2⟩
  · rw [← hspec.2.1, List.take_left]
  · rw [← hspec.2.1, List.drop_left]

/-- Witness for C2 at a concrete encrypt call. -/
theorem C2_ciphertext_shape_witness :
    ([162, 187, 168, 104, 117, 130, 143, 156, 169, 182, 195, 208, 221, 234, 247,
        4, 17, 30, 43] : List Nat).length = ([10, 20, 30] : List Nat).length + 16 ∧
    ∃ v, resolve_variant "Ascon-AEAD128" = some v ∧
      ([162, 187, 168, 104, 117, 130, 143, 156, 169, 182, 195, 208, 221, 234, 247,
        4, 17, 30, 43] : List Nat).take ([10, 20, 30] : List Nat).length =
        (v.encrypt_fn sampleKey sampleNonce [5, 6] [10, 20, 30]).2.1 ∧
      ([162, 187, 168, 104, 117, 130, 143, 156, 169, 182, 195, 208, 221, 234, 247,
        4, 17, 30, 43] : List Nat).drop ([10, 20, 30] : List Nat).length =
        (v.encrypt_fn sampleKey sampleNonce [5, 6] [10, 20, 30]).2.2 ∧
      (v.encrypt_fn sampleKey sampleNonce [5, 6] [10, 20, 30]).2.2.length = 16 :=
  C2_ciphertext_shape PY_SSIZE_T_MAX64 sampleKey sampleNonce [5, 6] [10, 20, 30]
    "Ascon-AEAD128"
    [162, 187, 168, 104, 117, 130, 143, 156, 169, 182, 195, 208, 221, 234, 247,
      4, 17, 30, 43] rfl

/-- C1: for every supported variant, 16-byte key, nonce of at least 16 bytes,
aad and plaintext (within the platform size limit so that encryption can
succeed), decrypting the output of `native_encrypt` with the same key, nonce,
aad and variant returns exactly that plaintext. -/
theorem C1_round_trip (pmax : Nat) (key nonce aad plaintext : List Nat)
    (name : String) (v : AsconVariant)
    (hk : key.length = 16) (hn : 16 ≤ nonce.length)
    (hres : resolve_variant name = some v)
    (hp : (plaintext.length : Int) ≤ (pmax : Int) - 16) :
    ∃ ct, native_encrypt pmax key nonce aad plaintext name = .ok ct ∧
      native_decrypt key nonce aad ct name = .ok (some plaintext) := by
  have hres' : find_variant kVariants name = some v := hres
  rcases resolve_variant_spec name v hres with ⟨hname, hv⟩ | ⟨hname, hv⟩
  · exact round_trip_aux 0 pmax key nonce aad plaintext name v hk hn hres'
      (by rw [hv]; rfl) (by rw [hv]; rfl) hp
  · exact round_trip_aux 1 pmax key nonce aad plaintext name v hk hn hres'
      (by rw [hv]; rfl) (by rw [hv]; rfl) hp

/-- Witness for C1 at a concrete key, nonce, aad, plaintext and variant. -/
theorem C1_round_trip_witness :
    ∃ ct, native_encrypt PY_SSIZE_T_MAX64 sampleKey sampleNonce [5, 6]
        [10, 20, 30] "Ascon-AEAD128" = .ok ct ∧
      native_decrypt sampleKey sampleNonce [5, 6] ct "Ascon-AEAD128" =
        .ok (some [10, 20, 30]) :=
  C1_round_trip PY_SSIZE_T_MAX64 sampleKey sampleNonce [5, 6] [10, 20, 30]
    "Ascon-AEAD128" variant128 (by decide) (by decide) resolve_variant_128
    (by norm_num [PY_SSIZE_T_MAX64])

/-- C3: once validation passes and the variant resolves, a nonzero primitive
status makes decrypt return the distinguished no-value outcome (`.ok none`,
the embedding of `Py_None`) rather than an error, with the primitive's output
buffer discarded; a zero status returns the populated buffer, whose length is
`ciphertext.length - 16`. -/
theorem C3_decrypt_outcomes (key nonce aad ct : List Nat) (name : String)
    (v : AsconVariant)
    (hk : key.length = 16) (hn : 16 ≤ nonce.length) (hc : 16 ≤ ct.length)
    (hres : resolve_variant name = some v) :
    ((v.decrypt_fn key nonce aad (ct.take (ct.length - 16))
        (ct.drop (ct.length - 16))).1 ≠ 0 →
      native_decrypt key nonce aad ct name = .ok none) ∧
    ((v.decrypt_fn key nonce aad (ct.take (ct.length - 16))
        (ct.drop (ct.length - 16))).1 = 0 →
      native_decrypt key nonce aad ct name =
        .ok (some (v.decrypt_fn key nonce aad (ct.take (ct.length - 16))
          (ct.drop (ct.length - 16))).2) ∧
      (v.decrypt_fn key nonce aad (ct.take (ct.length - 16))
        (ct.drop (ct.length - 16))).2.length = ct.length - 16) := by
  have hres' : find_variant kVariants name = some v := hres
  have heq := native_decrypt_impl_eq kVariants key nonce aad ct name v hk hn hc hres'
  constructor
  · intro hrc
    unfold native_decrypt
    rw [heq, if_pos hrc]
  · intro hrc
    refine ⟨?_, ?_⟩
    · unfold native_decrypt
      rw [heq, if_neg (by simp [hrc])]
    · have hbody : (ct.take (ct.length - 16)).length = ct.length - 16 := by
        rw [List.length_take]
        omega
      rcases resolve_variant_spec name v hres with ⟨_, hv⟩ | ⟨_, hv⟩ <;> subst hv <;>
        simp [variant128, variant128a, ascon_aead_decrypt, xorStream_length, hbody]

/-- Witness for C3: an all-zero 16-byte ciphertext fails verification and
decrypt returns the no-value outcome. -/
theorem C3_decrypt_outcomes_witness :
    native_decrypt sampleKey sampleNonce [] (List.replicate 16 0)
      "Ascon-AEAD128" = .ok none :=
  (C3_decrypt_outcomes sampleKey sampleNonce [] (List.replicate 16 0)
    "Ascon-AEAD128" variant128 (by decide) (by decide) (by decide)
    resolve_variant_128).1 (by decide)

/-- C4: a key whose length is not 16, a nonce shorter than 16, and (for
decrypt) a ciphertext shorter than 16 are each rejected with the
corresponding `ValueError` before the primitive can run: the result is the
same for every variant catalog `table`, so no primitive function is ever
consulted. -/
theorem C4_length_guards (table : List AsconVariant) (pmax : Nat)
    (key nonce aad text : List Nat) (name : String) :
    (key.length ≠ 16 →
      native_encrypt_impl table pmax key nonce aad text name =
        .error (.ValueError "key must be 16 bytes") ∧
      native_decrypt_impl table key nonce aad text name =
        .error (.ValueError "key must be 16 bytes")) ∧
    (key.length = 16 → nonce.length < 16 →
      native_encrypt_impl table pmax key nonce aad text name =
        .error (.ValueError "nonce must be at least 16 bytes") ∧
      native_decrypt_impl table key nonce aad text name =
        .error (.ValueError "nonce must be at least 16 bytes")) ∧
    (key.length = 16 → 16 ≤ nonce.length → text.length < 16 →
      native_decrypt_impl table key nonce aad text name =
        .error (.ValueError "ciphertext too short")) :=
  ⟨fun hk =>
      ⟨native_encrypt_impl_badkey table pmax key nonce aad text name hk,
       native_decrypt_impl_badkey table key nonce aad text name hk⟩,
   fun hk hn =>
      ⟨native_encrypt_impl_badnonce table pmax key nonce aad text name hk hn,
       native_decrypt_impl_badnonce table key nonce aad text name hk hn⟩,
   fun hk hn hc =>
      native_decrypt_impl_shortct table key nonce aad text name hk hn hc⟩

/-- Witness for C4: a 15-byte key, an 8-byte nonce and a 10-byte ciphertext
are each rejected on the real catalog. -/
theorem C4_length_guards_witness :
    native_encrypt PY_SSIZE_T_MAX64 (List.replicate 15 0) sampleNonce [] []
      "Ascon-AEAD128" = .error (.ValueError "key must be 16 bytes") ∧
    native_decrypt sampleKey (List.replicate 8 0) [] (List.replicate 16 0)
      "Ascon-AEAD128" = .error (.ValueError "nonce must be at least 16 bytes") ∧
    native_decrypt sampleKey sampleNonce [] (List.replicate 10 0)
      "Ascon-AEAD128" = .error (.ValueError "ciphertext too short") :=
  ⟨((C4_length_guards kVariants PY_SSIZE_T_MAX64 (List.replicate 15 0)
      sampleNonce [] [] "Ascon-AEAD128").1 (by decide)).1,
   ((C4_length_guards kVariants PY_SSIZE_T_MAX64 sampleKey (List.replicate 8 0)
      [] (List.replicate 16 0) "Ascon-AEAD128").2.1 (by decide) (by decide)).2,
   (C4_length_guards kVariants PY_SSIZE_T_MAX64 sampleKey sampleNonce []
      (List.replicate 10 0) "Ascon-AEAD128").2.2 (by decide) (by decide)
      (by decide)⟩

/-- C5: variant resolution succeeds exactly for the two catalog names,
compared by exact equality, and an unresolved name surfaces from both
dispatchers as the unknown-variant usage error. -/
theorem C5_variant_resolution (name : String) (pmax : Nat)
    (key nonce aad pt ct : List Nat)
    (hk : key.length = 16) (hn : 16 ≤ nonce.length) (hc : 16 ≤ ct.length) :
    ((resolve_variant name).isSome ↔
      name = "Ascon-AEAD128" ∨ name = "Ascon-AEAD128a") ∧
    (resolve_variant name = none →
      native_encrypt pmax key nonce aad pt name =
        .error (.ValueError "unknown Ascon variant") ∧
      native_decrypt key nonce aad ct name =
        .error (.ValueError "unknown Ascon variant")) := by
  constructor
  · constructor
    · intro hs
      obtain ⟨v, hv⟩ := Option.isSome_iff_exists.mp hs
      rcases resolve_variant_spec name v hv with ⟨hname, _⟩ | ⟨hname, _⟩
      · exact Or.inl hname
      · exact Or.inr hname
    · rintro (rfl | rfl)
      · rw [resolve_variant_128]
        rfl
      · rw [resolve_variant_128a]
        rfl
  · intro hnone
    exact ⟨native_encrypt_impl_unknown kVariants pmax key nonce aad pt name hk hn
        hnone,
      native_decrypt_impl_unknown kVariants key nonce aad ct name hk hn hc hnone⟩

/-- Witness for C5: `"Ascon-AEAD128b"` (a recognized name with one appended
character) resolves to nothing and both dispatchers reject it. -/
theorem C5_variant_resolution_witness :
    resolve_variant "Ascon-AEAD128b" = none ∧
    native_encrypt PY_SSIZE_T_MAX64 sampleKey sampleNonce [] []
      "Ascon-AEAD128b" = .error (.ValueError "unknown Ascon variant") ∧
    native_decrypt sampleKey sampleNonce [] (List.replicate 16 0)
      "Ascon-AEAD128b" = .error (.ValueError "unknown Ascon variant") := by
  have h := (C5_variant_resolution "Ascon-AEAD128b" PY_SSIZE_T_MAX64 sampleKey
    sampleNonce [] [] (List.replicate 16 0) (by decide) (by decide)
    (by decide)).2 rfl
  exact ⟨rfl, h.1, h.2⟩

/-- C6: a plaintext longer than the platform limit minus 16 is rejected by
encrypt with an `OverflowError`, a distinct exception class from the
`ValueError` used for every length-mismatch usage error. -/
theorem C6_overflow_guard (pmax : Nat) (key nonce aad pt : List Nat)
    (name : String) (v : AsconVariant)
    (hk : key.length = 16) (hn : 16 ≤ nonce.length)
    (hres : resolve_variant name = some v)
    (hp : (pmax : Int) - 16 < (pt.length : Int)) :
    native_encrypt pmax key nonce aad pt name =
      .error (.OverflowError "ciphertext length exceeds platform limits") ∧
    ∀ s, PyErr.OverflowError "ciphertext length exceeds platform limits" ≠
      PyErr.ValueError s := by
  refine ⟨native_encrypt_impl_overflow kVariants pmax key nonce aad pt name v hk
    hn hres hp, ?_⟩
  intro s h
  simp at h

/-- Witness for C6, with the platform limit instantiated to 0 so that even an
empty plaintext overflows. -/
theorem C6_overflow_guard_witness :
    native_encrypt 0 sampleKey sampleNonce [] [] "Ascon-AEAD128" =
      .error (.OverflowError "ciphertext length exceeds platform limits") :=
  (C6_overflow_guard 0 sampleKey sampleNonce [] [] "Ascon-AEAD128" variant128
    (by decide) (by decide) resolve_variant_128 (by decide)).1

/-- C7 counterexample: an encrypt call whose plaintext overflows the platform
limit and whose variant name is unknown raises the unknown-variant usage
error, not the overflow error — the overflow check runs after variant
resolution, contrary to the claim. -/
theorem C7_counterexample :
    (0 : Int) - 16 < ((([] : List Nat).length : Nat) : Int) ∧
    resolve_variant "Ascon-AEAD128b" = none ∧
    native_encrypt 0 sampleKey sampleNonce [] [] "Ascon-AEAD128b" =
      .error (.ValueError "unknown Ascon variant") ∧
    native_encrypt 0 sampleKey sampleNonce [] [] "Ascon-AEAD128b" ≠
      .error (.OverflowError "ciphertext length exceeds platform limits") := by
  refine ⟨by decide, rfl, rfl, ?_⟩
  intro h
  rw [show native_encrypt 0 sampleKey sampleNonce [] [] "Ascon-AEAD128b" =
    .error (.ValueError "unknown Ascon variant") from rfl] at h
  simp at h

/-- C7 amended: the key- and nonce-length checks run before variant
resolution, but the length-conversion and overflow checks run after it; with
a valid key and nonce, an unknown variant name is reported even when the
plaintext length also overflows, and the overflow error is raised only once
the variant has resolved. -/
theorem C7_amended_order (pmax : Nat) (key nonce aad pt : List Nat)
    (name : String) (hk : key.length = 16) (hn : 16 ≤ nonce.length) :
    (resolve_variant name = none →
      native_encrypt pmax key nonce aad pt name =
        .error (.ValueError "unknown Ascon variant")) ∧
    (∀ v, resolve_variant name = some v →
      (pmax : Int) - 16 < (pt.length : Int) →
      native_encrypt pmax key nonce aad pt name =
        .error (.OverflowError "ciphertext length exceeds platform limits")) :=
  ⟨fun hnone =>
      native_encrypt_impl_unknown kVariants pmax key nonce aad pt name hk hn hnone,
   fun v hres hp =>
      native_encrypt_impl_overflow kVariants pmax key nonce aad pt name v hk hn
        hres hp⟩

/-- Witness for the amended C7: with platform limit 0 and empty plaintext
(an overflowing call), the unknown name loses to no check, while the known
name is rejected for overflow. -/
theorem C7_amended_order_witness :
    native_encrypt 0 sampleKey sampleNonce [] [] "Ascon-AEAD128b" =
      .error (.ValueError "unknown Ascon variant") ∧
    native_encrypt 0 sampleKey sampleNonce [] [] "Ascon-AEAD128" =
      .error (.OverflowError "ciphertext length exceeds platform limits") :=
  ⟨(C7_amended_order 0 sampleKey sampleNonce [] [] "Ascon-AEAD128b" (by decide)
      (by decide)).1 rfl,
   (C7_amended_order 0 sampleKey sampleNonce [] [] "Ascon-AEAD128" (by decide)
      (by decide)).2 variant128 resolve_variant_128 (by decide)⟩

/-- C8: two encrypt calls with the same key, aad, plaintext and variant, whose
nonces are at least 16 bytes long and agree on their first 16 bytes, produce
identical results: the output depends on the nonce only through its first 16
bytes. -/
theorem C8_nonce_tail_independence (pmax : Nat) (key aad pt : List Nat)
    (name : String) (n1 n2 : List Nat)
    (hn1 : 16 ≤ n1.length) (hn2 : 16 ≤ n2.length)
    (h : n1.take 16 = n2.take 16) :
    native_encrypt pmax key n1 aad pt name =
      native_encrypt pmax key n2 aad pt name := by
  unfold native_encrypt
  by_cases hk : key.length = 16
  · cases hfv : find_variant kVariants name with
    | none =>
      rw [native_encrypt_impl_unknown kVariants pmax key n1 aad pt name hk hn1 hfv,
        native_encrypt_impl_unknown kVariants pmax key n2 aad pt name hk hn2 hfv]
    | some v =>
      have henc : v.encrypt_fn key n1 aad pt = v.encrypt_fn key n2 aad pt := by
        rcases resolve_variant_spec name v hfv with ⟨_, hv⟩ | ⟨_, hv⟩ <;> subst hv <;>
          · simp only [variant128, variant128a, ascon_aead_encrypt]
            rw [xorStream_nonce_take _ key n1 n2 0 pt h,
              mkTag_nonce_take _ key n1 n2 aad _ h]
      by_cases hp : (pt.length : Int) ≤ (pmax : Int) - 16
      · rw [native_encrypt_impl_eq kVariants pmax key n1 aad pt name v hk hn1 hfv hp,
          native_encrypt_impl_eq kVariants pmax key n2 aad pt name v hk hn2 hfv hp,
          henc]
      · push_neg at hp
        rw [native_encrypt_impl_overflow kVariants pmax key n1 aad pt name v hk hn1
            hfv hp,
          native_encrypt_impl_overflow kVariants pmax key n2 aad pt name v hk hn2
            hfv hp]
  · rw [native_encrypt_impl_badkey kVariants pmax key n1 aad pt name hk,
      native_encrypt_impl_badkey kVariants pmax key n2 aad pt name hk]

/-- Witness for C8: a 16-byte nonce and its 20-byte extension encrypt
identically. -/
theorem C8_nonce_tail_independence_witness :
    native_encrypt PY_SSIZE_T_MAX64 sampleKey sampleNonce [5, 6] [10, 20, 30]
      "Ascon-AEAD128" =
    native_encrypt PY_SSIZE_T_MAX64 sampleKey sampleNonceLong [5, 6] [10, 20, 30]
      "Ascon-AEAD128" :=
  C8_nonce_tail_independence PY_SSIZE_T_MAX64 sampleKey [5, 6] [10, 20, 30]
    "Ascon-AEAD128" sampleNonce sampleNonceLong (by decide) (by decide)
    (by decide)

/-- C9: a ciphertext of exactly 16 bytes (a bare tag) is not a usage error:
decrypt hands the primitive an empty body, returns the empty byte sequence
when verification succeeds and the no-value outcome when it fails. -/
theorem C9_bare_tag_decrypt (key nonce aad ct : List Nat) (name : String)
    (v : AsconVariant)
    (hk : key.length = 16) (hn : 16 ≤ nonce.length) (hc : ct.length = 16)
    (hres : resolve_variant name = some v) :
    ct.take (ct.length - 16) = ([] : List Nat) ∧
    ((v.decrypt_fn key nonce aad [] ct).1 = 0 →
      native_decrypt key nonce aad ct name = .ok (some [])) ∧
    ((v.decrypt_fn key nonce aad [] ct).1 ≠ 0 →
      native_decrypt key nonce aad ct name = .ok none) := by
  have hres' : find_variant kVariants name = some v := hres
  have hc' : 16 ≤ ct.length := le_of_eq hc.symm
  have heq := native_decrypt_impl_eq kVariants key nonce aad ct name v hk hn hc'
    hres'
  have hzero : ct.length - 16 = 0 := by omega
  rw [hzero] at heq
  rw [show ct.take 0 = ([] : List Nat) from rfl,
    show ct.drop 0 = ct from rfl] at heq
  refine ⟨by rw [hzero]; rfl, ?_, ?_⟩
  · intro h0
    unfold native_decrypt
    rw [heq, if_neg (by simp [h0])]
    rcases resolve_variant_spec name v hres with ⟨_, hv⟩ | ⟨_, hv⟩ <;> subst hv <;>
      rfl
  · intro h0
    unfold native_decrypt
    rw [heq, if_pos h0]

/-- Witness for C9: the correct tag of the empty message decrypts to the
empty byte sequence. -/
theorem C9_bare_tag_decrypt_witness :
    native_decrypt sampleKey sampleNonce []
      (mkTag 0 sampleKey sampleNonce [] []) "Ascon-AEAD128" = .ok (some []) :=
  (C9_bare_tag_decrypt sampleKey sampleNonce []
    (mkTag 0 sampleKey sampleNonce [] []) "Ascon-AEAD128" variant128
    (by decide) (by decide) (by decide) resolve_variant_128).2.1 (by decide)

/-! ### Characterization of the reachable dispatcher errors, for C10 -/

theorem except_error_ne {α : Type} (e1 e2 : PyErr) (h : e1 ≠ e2) :
    (Except.error e1 : Except PyErr α) ≠ .error e2 := by
  intro hc
  injection hc with hc
  exact h hc

theorem native_encrypt_impl_errors (table : List AsconVariant) (pmax : Nat)
    (key nonce aad pt : List Nat) (name : String) (e : PyErr)
    (h : native_encrypt_impl table pmax key nonce aad pt name = .error e) :
    e = .ValueError "key must be 16 bytes" ∨
    e = .ValueError "nonce must be at least 16 bytes" ∨
    e = .ValueError "unknown Ascon variant" ∨
    e = .OverflowError "ciphertext length exceeds platform limits" ∨
    e = .RuntimeError "Ascon encryption failed" := by
  by_cases hk : key.length = 16
  · by_cases hn : nonce.length < 16
    · rw [native_encrypt_impl_badnonce table pmax key nonce aad pt name hk hn] at h
      injection h with h
      exact Or.inr (Or.inl h.symm)
    · push_neg at hn
      cases hfv : find_variant table name with
      | none =>
        rw [native_encrypt_impl_unknown table pmax key nonce aad pt name hk hn
          hfv] at h
        injection h with h
        exact Or.inr (Or.inr (Or.inl h.symm))
      | some v =>
        by_cases hp : (pt.length : Int) ≤ (pmax : Int) - 16
        · rw [native_encrypt_impl_eq table pmax key nonce aad pt name v hk hn hfv
            hp] at h
          by_cases hrc : (v.encrypt_fn key nonce aad pt).1 ≠ 0
          · rw [if_pos hrc] at h
            injection h with h
            exact Or.inr (Or.inr (Or.inr (Or.inr h.symm)))
          · rw [if_neg hrc] at h
            exact absurd h (by simp)
        · push_neg at hp
          rw [native_encrypt_impl_overflow table pmax key nonce aad pt name v hk hn
            hfv hp] at h
          injection h with h
          exact Or.inr (Or.inr (Or.inr (Or.inl h.symm)))
  · rw [native_encrypt_impl_badkey table pmax key nonce aad pt name hk] at h
    injection h with h
    exact Or.inl h.symm

theorem native_decrypt_impl_errors (table : List AsconVariant)
    (key nonce aad ct : List Nat) (name : String) (e : PyErr)
    (h : native_decrypt_impl table key nonce aad ct name = .error e) :
    e = .ValueError "key must be 16 bytes" ∨
    e = .ValueError "nonce must be at least 16 bytes" ∨
    e = .ValueError "ciphertext too short" ∨
    e = .ValueError "unknown Ascon variant" := by
  by_cases hk : key.length = 16
  · by_cases hn : nonce.length < 16
    · rw [native_decrypt_impl_badnonce table key nonce aad ct name hk hn] at h
      injection h with h
      exact Or.inr (Or.inl h.symm)
    · push_neg at hn
      by_cases hc : ct.length < 16
      · rw [native_decrypt_impl_shortct table key nonce aad ct name hk hn hc] at h
        injection h with h
        exact Or.inr (Or.inr (Or.inl h.symm))
      · push_neg at hc
        cases hfv : find_variant table name with
        | none =>
          rw [native_decrypt_impl_unknown table key nonce aad ct name hk hn hc
            hfv] at h
          injection h with h
          exact Or.inr (Or.inr (Or.inr h.symm))
        | some v =>
          rw [native_decrypt_impl_eq table key nonce aad ct name v hk hn hc
            hfv] at h
          by_cases hrc : (v.decrypt_fn key nonce aad (ct.take (ct.length - 16))
              (ct.drop (ct.length - 16))).1 ≠ 0
          · rw [if_pos hrc] at h
            exact absurd h (by simp)
          · rw [if_neg hrc] at h
            exact absurd h (by simp)
  · rw [native_decrypt_impl_badkey table key nonce aad ct name hk] at h
    injection h with h
    exact Or.inl h.symm

/-- C10: the negative-length branch of `convert_length` is unreachable from
the dispatchers: on a buffer length (a natural number cast to the signed
width) it succeeds and returns the length unchanged; on decrypt's body length
it succeeds once the too-short guard has passed; and neither dispatcher, on
any input and any catalog, can return one of the negative-length error
values. -/
theorem C10_convert_length_total :
    (∀ (n : Nat) (field : String), convert_length (n : Int) field = .ok n) ∧
    (∀ (n : Nat), 16 ≤ n → ∀ (field : String),
      convert_length ((n : Int) - 16) field = .ok (n - 16)) ∧
    (∀ (table : List AsconVariant) (pmax : Nat) (key nonce aad pt : List Nat)
        (name : String),
      native_encrypt_impl table pmax key nonce aad pt name ≠
        .error (.ValueError "aad length must be non-negative") ∧
      native_encrypt_impl table pmax key nonce aad pt name ≠
        .error (.ValueError "plaintext length must be non-negative") ∧
      native_decrypt_impl table key nonce aad pt name ≠
        .error (.ValueError "aad length must be non-negative") ∧
      native_decrypt_impl table key nonce aad pt name ≠
        .error (.ValueError "ciphertext length must be non-negative")) := by
  refine ⟨convert_length_ofNat, fun n hn field => convert_length_sub16 n field hn,
    fun table pmax key nonce aad pt name => ⟨?_, ?_, ?_, ?_⟩⟩ <;> intro h
  · rcases native_encrypt_impl_errors table pmax key nonce aad pt name _ h with
      h1 | h1 | h1 | h1 | h1 <;> exact absurd h1 (by decide)
  · rcases native_encrypt_impl_errors table pmax key nonce aad pt name _ h with
      h1 | h1 | h1 | h1 | h1 <;> exact absurd h1 (by decide)
  · rcases native_decrypt_impl_errors table key nonce aad pt name _ h with
      h1 | h1 | h1 | h1 <;> exact absurd h1 (by decide)
  · rcases native_decrypt_impl_errors table key nonce aad pt name _ h with
      h1 | h1 | h1 | h1 <;> exact absurd h1 (by decide)

/-- Witness for C10 at concrete lengths. -/
theorem C10_convert_length_total_witness :
    convert_length ((3 : Nat) : Int) "aad" = .ok 3 ∧
    convert_length (((19 : Nat) : Int) - 16) "ciphertext" = .ok 3 ∧
    native_decrypt sampleKey sampleNonce [] (List.replicate 10 0)
      "Ascon-AEAD128" ≠
      .error (.ValueError "ciphertext length must be non-negative") :=
  ⟨C10_convert_length_total.1 3 "aad",
   C10_convert_length_total.2.1 19 (by decide) "ciphertext",
   (C10_convert_length_total.2.2 kVariants PY_SSIZE_T_MAX64 sampleKey
      sampleNonce [] (List.replicate 10 0) "Ascon-AEAD128").2.2.2⟩

end AsconNative
